import Mathlib

/-!
Shallow embedding of the price-cache-and-valuation pipeline of the
finance_tracker repository (`src/app/api/portfolio/route.ts`).

Modelling conventions:
* A calendar day is an integer (`ℤ`): the code keys every map by the
  `YYYY-MM-DD` prefix of an ISO timestamp and steps days by one, so days
  form a discrete integer line.  `d.setDate(d.getDate() - 1)` is `d - 1`.
* JavaScript numbers are modelled as rationals (`ℚ`); the claims under
  study are structural (which days, which fields, which sums), not about
  float rounding.
* A JS `Map` is a function `ℤ → Option ℚ`; `Map.set` overwrites, which the
  `mapSet`/`buildMap` definitions reproduce (later insertions win).
* JS truthiness of a number (`x || 0`, `if (rate)`, `if (price)`) is
  "≠ 0"; `getNum` models `map.get(k) || 0`.
* The Prisma reads/writes and the Yahoo gateway are explicit state passing
  over a `Store` value plus a gateway oracle `ℤ → Option _` (the start
  date passed to `chart` ↦ success payload or failure).
-/

namespace FinanceTracker

/-- Transaction type, from the Prisma `Transaction.type` field. -/
inductive TxType where
  | BUY
  | SELL
deriving DecidableEq, Repr

/-- A ledger transaction (`Transaction` row, the fields the route reads). -/
structure Transaction where
  ticker : String
  type : TxType
  quantity : ℚ
  date : ℤ
  assetClass : Option String
deriving DecidableEq, Repr

/-- A daily price bar as returned to the route by `getAssetData`
(`date/open/high/low/close/adjClose/volume`). `open` is a Lean keyword,
hence the field name `open_`. -/
structure Bar where
  date : ℤ
  open_ : ℚ
  high : ℚ
  low : ℚ
  close : ℚ
  adjClose : ℚ
  volume : ℚ
deriving DecidableEq, Repr

/-- One entry of the `results` array built in step 2 of `GET`:
either `{ticker, currency, data}` or `{ticker, error}`. -/
inductive FetchResult where
  | ok (ticker : String) (currency : String) (data : List Bar)
  | err (ticker : String) (message : String)
deriving DecidableEq, Repr

def FetchResult.tickerOf : FetchResult → String
  | .ok t _ _ => t
  | .err t _ => t

def FetchResult.isOk : FetchResult → Bool
  | .ok _ _ _ => true
  | .err _ _ => false

/-- `res.data` as the holdings code reads it: absent on error objects. -/
def FetchResult.dataOf : FetchResult → Option (List Bar)
  | .ok _ _ d => some d
  | .err _ _ => none

/-- `map.get(k) || 0` : JS map lookup with `undefined` coerced to `0`. -/
def getNum (m : ℤ → Option ℚ) (d : ℤ) : ℚ := (m d).getD 0

/-- `map.set(k, v)`. -/
def mapSet (m : ℤ → Option ℚ) (k : ℤ) (v : ℚ) : ℤ → Option ℚ :=
  fun x => if x = k then some v else m x

/-- The empty JS map. -/
def emptyMap : ℤ → Option ℚ := fun _ => none

/-- Build a JS map from a list of (key, value) pairs; later pairs
overwrite earlier ones, as `Map.set` does. -/
def buildMap (l : List (ℤ × ℚ)) : ℤ → Option ℚ :=
  l.foldl (fun m p => mapSet m p.1 p.2) emptyMap

/-- The rate `dateMap` built in step 3 of `GET` (lines 274–280): rows with
a falsy rate are skipped (`if (rate) dateMap.set(...)`). -/
def buildRateMap (rows : List (ℤ × ℚ)) : ℤ → Option ℚ :=
  rows.foldl (fun m r => if r.2 ≠ 0 then mapSet m r.1 r.2 else m) emptyMap

/-- The backward walk shared by the FX and pricing code
(`for i = 1..7 { d := d - 1; if (map.get(d)) break }`): starting just
below `d`, scan at most `n` consecutive earlier days and return the first
truthy value found. -/
def findPrior (m : ℤ → Option ℚ) : ℤ → ℕ → Option ℚ
  | _, 0 => none
  | d, n + 1 =>
    let r := getNum m (d - 1)
    if r = 0 then findPrior m (d - 1) n else some r

/-- The per-bar FX rate resolution of `GET` step 4 (lines 297–313).
`skipFx` is `normCurrency === baseCurrency`; `ratesOpt` is
`rateMap[normCurrency]` (absent keys give `none`).  The code initialises
`rate = 1`, overwrites it with the exact-date rate (`|| 0`) plus the
7-day backward walk only when `normCurrency !== baseCurrency && rates`,
and finally turns a remaining `0` into `1`. -/
def resolveRate (skipFx : Bool) (ratesOpt : Option (ℤ → Option ℚ)) (d : ℤ) : ℚ :=
  let rate : ℚ :=
    match skipFx, ratesOpt with
    | false, some m =>
      let r := getNum m d
      if r = 0 then (findPrior m d 7).getD 0 else r
    | _, _ => 1
  if rate = 0 then 1 else rate

/-- The multiplier applied to a bar on day `d` (line 314):
`isGBp ? rate * 0.01 : rate`. -/
def multiplierOf (isGBp : Bool) (skipFx : Bool) (ratesOpt : Option (ℤ → Option ℚ))
    (d : ℤ) : ℚ :=
  let rate := resolveRate skipFx ratesOpt d
  if isGBp then rate * (1 / 100) else rate

/-- Conversion of one bar (lines 297–324): open/high/low/close are
multiplied by the day's multiplier (`(x || 0) * multiplier`; `x || 0` is
the identity on rationals), the remaining fields ride along unchanged in
the `...day` spread. -/
def convertBar (isGBp : Bool) (skipFx : Bool) (ratesOpt : Option (ℤ → Option ℚ))
    (bar : Bar) : Bar :=
  let multiplier := multiplierOf isGBp skipFx ratesOpt bar.date
  { bar with
      close := bar.close * multiplier
      open_ := bar.open_ * multiplier
      high := bar.high * multiplier
      low := bar.low * multiplier }

/-- Step 4 of `GET` (lines 285–327) applied to one `results` entry. -/
def convertResult (baseCurrency : String)
    (rateMap : String → Option (ℤ → Option ℚ)) : FetchResult → FetchResult
  | .err t m => .err t m
  | .ok t currency data =>
    let isGBp : Bool := currency == "GBp"
    let normCurrency := if isGBp then "GBP" else currency
    if normCurrency == baseCurrency && !isGBp then
      .ok t baseCurrency data
    else
      let rates := rateMap normCurrency
      let skipFx : Bool := normCurrency == baseCurrency
      .ok t baseCurrency (data.map (convertBar isGBp skipFx rates))

/-- `+quantity` for a BUY, `−quantity` for a SELL. -/
def signedQty (tx : Transaction) : ℚ :=
  match tx.type with
  | .BUY => tx.quantity
  | .SELL => -tx.quantity

/-- `txs.reduce((sum, tx) => sum + (tx.type === 'BUY' ? tx.quantity :
-tx.quantity), 0)`. -/
def sumSigned (txs : List Transaction) : ℚ :=
  txs.foldl (fun s tx => s + signedQty tx) 0

/-- `txByTicker[ticker]`: grouping by ticker preserves encounter order,
so the group is the order-preserving filter of the ledger. -/
def txsFor (txs : List Transaction) (t : String) : List Transaction :=
  txs.filter (fun tx => tx.ticker == t)

/-- The engine's held quantity on day `d` (lines 365–371 and 403–409):
filter the ticker's transactions to those with date ≤ d, then reduce the
signed quantities. -/
def heldQuantity (txs : List Transaction) (d : ℤ) : ℚ :=
  sumSigned (txs.filter (fun tx => decide (tx.date ≤ d)))

/-- Price resolution inside the series loop (lines 376–388): exact-date
lookup, falling back to the 7-day backward walk when the exact value is
missing or `0`; `none` means the final `if (price)` guard fails. A ticker
without a price map (errored fetch) resolves to `none` outright, since
`prices?.get` is `undefined` and the walk is guarded by `&& prices`. -/
def resolvePrice (pmOpt : Option (ℤ → Option ℚ)) (d : ℤ) : Option ℚ :=
  match pmOpt with
  | none => none
  | some m =>
    let v := getNum m d
    if v = 0 then findPrior m d 7 else some v

/-- One ticker's addition to `dailyTotal` on day `d` (lines 362–394):
`quantity * price` when the held quantity is positive and a price
resolves, else nothing. -/
def dayContribution (pm : String → Option (ℤ → Option ℚ))
    (txsAll : List Transaction) (t : String) (d : ℤ) : ℚ :=
  let q := heldQuantity (txsFor txsAll t) d
  if 0 < q then
    match resolvePrice (pm t) d with
    | some p => q * p
    | none => 0
  else 0

/-- `dailyTotal` for day `d`: the `forEach` over `Object.keys(txByTicker)`
accumulating contributions. -/
def dailyTotalOf (tickers : List String) (pm : String → Option (ℤ → Option ℚ))
    (txsAll : List Transaction) (d : ℤ) : ℚ :=
  tickers.foldl (fun s t => s + dayContribution pm txsAll t d) 0

/-- One point of `portfolioSeries` (lines 396–430): `{date, value}` plus
one field per ticker, kept as an association list in key insertion
order. -/
structure SeriesPoint where
  date : ℤ
  value : ℚ
  breakdown : List (String × ℚ)
deriving DecidableEq, Repr

/-- The per-ticker breakdown fields of a series point (lines 401–428):
for each ticker, in key order, a field is added exactly when the held
quantity is positive and a price resolves. -/
def breakdownOf (tickers : List String) (pm : String → Option (ℤ → Option ℚ))
    (txsAll : List Transaction) (d : ℤ) : List (String × ℚ) :=
  tickers.foldl (fun acc t =>
    let q := heldQuantity (txsFor txsAll t) d
    if 0 < q then
      match resolvePrice (pm t) d with
      | some p => acc ++ [(t, q * p)]
      | none => acc
    else acc) []

/-- The point pushed for day `d` when it is included. -/
def pointOf (tickers : List String) (pm : String → Option (ℤ → Option ℚ))
    (txsAll : List Transaction) (d : ℤ) : SeriesPoint :=
  { date := d
    value := dailyTotalOf tickers pm txsAll d
    breakdown := breakdownOf tickers pm txsAll d }

/-- The body of the day loop (lines 357–432): push the day's point when
`dailyTotal > 0 || portfolioSeries.length > 0`. -/
def seriesStep (tickers : List String) (pm : String → Option (ℤ → Option ℚ))
    (txsAll : List Transaction) (acc : List SeriesPoint) (d : ℤ) : List SeriesPoint :=
  let dailyTotal := dailyTotalOf tickers pm txsAll d
  if 0 < dailyTotal ∨ acc ≠ [] then acc ++ [pointOf tickers pm txsAll d] else acc

/-- The calendar days enumerated by
`for (let d = startDate; d <= today; d += oneDay)`: `a, a+1, …, b`. -/
def dayRange (a b : ℤ) : List ℤ :=
  (List.range (b + 1 - a).toNat).map (fun (i : ℕ) => a + (i : ℤ))

/-- The whole `portfolioSeries` computation. -/
def portfolioSeriesOf (tickers : List String) (pm : String → Option (ℤ → Option ℚ))
    (txsAll : List Transaction) (startDate today : ℤ) : List SeriesPoint :=
  (dayRange startDate today).foldl (seriesStep tickers pm txsAll) []

/-- One current-holdings row (lines 462–468). -/
structure Holding where
  ticker : String
  quantity : ℚ
  currentPrice : ℚ
  currentValue : ℚ
  assetClass : String
deriving DecidableEq, Repr

/-- The transaction the holdings code takes the asset class from:
`[...tx].sort((a, b) => b.date - a.date)[0]` — the first transaction of
maximal date (V8's sort is stable, so ties keep encounter order). -/
def latestTx (txs : List Transaction) : Option Transaction :=
  txs.foldl (fun best tx =>
    match best with
    | none => some tx
    | some b => if b.date < tx.date then some tx else some b) none

/-- `priceMap` (lines 333–343): only non-error results set a key, mapping
each bar's date to its converted close. Tickers are pairwise distinct in
`results`, so first-match lookup agrees with the JS record. -/
def priceMapOf (rs : List FetchResult) (t : String) : Option (ℤ → Option ℚ) :=
  match rs.find? (fun r => r.isOk && r.tickerOf == t) with
  | some (.ok _ _ data) => some (buildMap (data.map (fun b => (b.date, b.close))))
  | _ => none

/-- The `currentPrice` of a ticker in the holdings summary (lines
450–456): the close of the last bar of the ticker's converted result,
`0` when there is no result, no data field, or no bars. -/
def currentPriceOf (convertedResults : List FetchResult) (t : String) : ℚ :=
  match convertedResults.find? (fun r => r.tickerOf == t) with
  | some r =>
    match r.dataOf with
    | some bars =>
      match bars.getLast? with
      | some b => b.close
      | none => 0
    | none => 0
  | none => 0

/-- One holdings row (lines 445–468): the quantity reduces over **all**
of the ticker's transactions (no date filter). -/
def mkHolding (txsAll : List Transaction) (convertedResults : List FetchResult)
    (t : String) : Holding :=
  let q := sumSigned (txsFor txsAll t)
  let currentPrice := currentPriceOf convertedResults t
  let assetClass := ((latestTx (txsFor txsAll t)).bind Transaction.assetClass).getD "Stocks"
  { ticker := t, quantity := q, currentPrice := currentPrice,
    currentValue := q * currentPrice, assetClass := assetClass }

/-- Step 6 of `GET` (lines 436–470): current holdings summary; rows with
non-positive quantity are dropped at the end (line 469). -/
def holdingsOf (tickers : List String) (txsAll : List Transaction)
    (convertedResults : List FetchResult) : List Holding :=
  (tickers.map (mkHolding txsAll convertedResults)).filter
    (fun h => decide (0 < h.quantity))

/-- First-occurrence deduplication, as `Array.from(new Set(...))` and the
key order of `txByTicker` produce. -/
def dedup (l : List String) : List String :=
  l.foldl (fun acc x => if x ∈ acc then acc else acc ++ [x]) []

/-- The distinct tickers of a ledger, in encounter order. -/
def tickersOf (txs : List Transaction) : List String :=
  dedup (txs.map Transaction.ticker)

/-- Outcome of the per-ticker fetch of `GET` step 2 (lines 243–256): the
combined `getAssetData` + `quote` call either yields a currency and a bar
list or throws, which the inner `catch` turns into an error entry. -/
inductive FetchOutcome where
  | ok (currency : String) (bars : List Bar)
  | err (message : String)
deriving DecidableEq, Repr

/-- The inputs of one `GET` evaluation, with the two external effects
(per-ticker fetch, per-pair exchange-rate rows as returned by
`getExchangeRateData`) abstracted as oracles. -/
structure PipelineInput where
  transactions : List Transaction
  baseCurrency : String
  fetch : String → FetchOutcome
  rateSeries : String → List (ℤ × ℚ)
  today : ℤ

/-- The response payload of `GET` (line 472), restricted to the computed
fields the claims are about. -/
structure PipelineOutput where
  results : List FetchResult
  baseCurrency : String
  portfolioSeries : List SeriesPoint
  holdings : List Holding
deriving DecidableEq, Repr

/-- The error entry a `results` element contributes: `{ticker, error}`
objects carry one, ok objects none. -/
def errEntry : FetchResult → Option (String × String)
  | .err t m => some (t, m)
  | _ => none

/-- The error entries of the `results` array. -/
def errorsOf (rs : List FetchResult) : List (String × String) :=
  rs.filterMap errEntry

/-- Step 2 of `GET` (lines 243–256) for one ticker: the fetched
`{ticker, currency, data}` object, or the `{ticker, error}` object the
inner `catch` produces. -/
def rawEntry (fetch : String → FetchOutcome) (t : String) : FetchResult :=
  match fetch t with
  | .ok c bars => FetchResult.ok t c bars
  | .err m => FetchResult.err t m

/-- Step 2 of `GET`: one `results` entry per ticker. -/
def rawResults (fetch : String → FetchOutcome) (tickers : List String) :
    List FetchResult :=
  tickers.map (rawEntry fetch)

/-- Step 3a of `GET` (lines 259–267): the currencies needing a rate
series — non-error results with a truthy currency, `GBp` normalised to
`GBP`, the base currency excluded.  Duplicates are irrelevant: only
membership is consumed. -/
def uniqueCurrenciesOf (base : String) (results : List FetchResult) : List String :=
  results.filterMap (fun r =>
    match r with
    | .ok _ currency _ =>
      if currency ≠ "" then
        let c := if currency == "GBp" then "GBP" else currency
        if c ≠ base then some c else none
      else none
    | _ => none)

/-- Step 3b of `GET` (lines 269–282): `rateMap`, keyed by currency, each
entry the date map of the pair `<currency><base>=X`. -/
def pipelineRateMap (base : String) (rateSeries : String → List (ℤ × ℚ))
    (results : List FetchResult) : String → Option (ℤ → Option ℚ) :=
  fun c =>
    if c ∈ uniqueCurrenciesOf base results then
      some (buildRateMap (rateSeries (c ++ base ++ "=X")))
    else none

/-- Steps 2–4 of `GET`: the `convertedResults` array. -/
def convertedResultsOf (inp : PipelineInput) : List FetchResult :=
  (rawResults inp.fetch (tickersOf inp.transactions)).map
    (convertResult inp.baseCurrency
      (pipelineRateMap inp.baseCurrency inp.rateSeries
        (rawResults inp.fetch (tickersOf inp.transactions))))

/-- Steps 1–6 of `GET` for the portfolio path (lines 212–479): tickers
are the distinct ledger tickers; `period1` is the date of the first
ledger row (the DB read is ordered by date ascending); results are
fetched per ticker, converted into the base currency through the rate
maps, and fed to the series and holdings computations. An empty ledger
short-circuits to the empty payload (line 223). -/
def getPipeline (inp : PipelineInput) : PipelineOutput :=
  match inp.transactions with
  | [] => { results := [], baseCurrency := inp.baseCurrency,
            portfolioSeries := [], holdings := [] }
  | t0 :: _ =>
    { results := convertedResultsOf inp
      baseCurrency := inp.baseCurrency
      portfolioSeries := portfolioSeriesOf (tickersOf inp.transactions)
        (priceMapOf (convertedResultsOf inp)) inp.transactions t0.date inp.today
      holdings := holdingsOf (tickersOf inp.transactions) inp.transactions
        (convertedResultsOf inp) }

/-! ## Price Cache Manager (`getAssetData`, `getExchangeRateData`) -/

/-- One `AssetPrice` row of the Prisma store. -/
structure AssetRow where
  ticker : String
  date : ℤ
  open_ : ℚ
  high : ℚ
  low : ℚ
  close : ℚ
  volume : ℤ
  adjClose : ℚ
  currency : String
deriving DecidableEq, Repr

/-- One `ExchangeRate` row of the Prisma store. -/
structure RateRow where
  pair : String
  date : ℤ
  rate : ℚ
deriving DecidableEq, Repr

/-- The durable state the two cache helpers read and write: the
`SyncRegistry` table (`key ↦ lastCheck`, kept at calendar-day precision
because the code only ever compares `toDateString()` values) and the two
price tables. -/
structure Store where
  syncRegistry : String → Option ℤ
  assetPrice : List AssetRow
  exchangeRate : List RateRow

/-- One quote object of a Yahoo `chart` response, with every numeric
field possibly absent. -/
structure Quote where
  date : ℤ
  open_ : Option ℚ
  high : Option ℚ
  low : Option ℚ
  close : Option ℚ
  adjclose : Option ℚ
  volume : Option ℤ
deriving DecidableEq, Repr

/-- Ordering a DB read by a date projection. -/
def keyLe {α : Type} (f : α → ℤ) (a b : α) : Prop := f a ≤ f b

instance {α : Type} (f : α → ℤ) : DecidableRel (keyLe f) :=
  fun a b => inferInstanceAs (Decidable (f a ≤ f b))

instance {α : Type} (f : α → ℤ) : IsTotal α (keyLe f) :=
  ⟨fun a b => Int.le_total (f a) (f b)⟩

instance {α : Type} (f : α → ℤ) : IsTrans α (keyLe f) :=
  ⟨fun _ _ _ h1 h2 => le_trans h1 h2⟩

/-- `prisma.assetPrice.findMany({where: {ticker, date: {gte: fromDate}},
orderBy: {date: 'asc'}})`. -/
def readAssetRange (store : Store) (ticker : String) (fromDate : ℤ) : List AssetRow :=
  List.insertionSort (keyLe AssetRow.date)
    (store.assetPrice.filter (fun r => r.ticker == ticker && decide (fromDate ≤ r.date)))

/-- `prisma.exchangeRate.findMany({where: {pair, date: {gte: fromDate}},
orderBy: {date: 'asc'}})`. -/
def readRateRange (store : Store) (pair : String) (fromDate : ℤ) : List RateRow :=
  List.insertionSort (keyLe RateRow.date)
    (store.exchangeRate.filter (fun r => r.pair == pair && decide (fromDate ≤ r.date)))

/-- `createMany({data, skipDuplicates: true})` on `AssetPrice`: rows whose
(ticker, date) key is already present — in the table or earlier in the
batch — are skipped. -/
def insertAssetRows (rows newRows : List AssetRow) : List AssetRow :=
  newRows.foldl (fun acc r =>
    if acc.any (fun x => x.ticker == r.ticker && x.date == r.date) then acc
    else acc ++ [r]) rows

/-- `createMany({data, skipDuplicates: true})` on `ExchangeRate`. -/
def insertRateRows (rows newRows : List RateRow) : List RateRow :=
  newRows.foldl (fun acc r =>
    if acc.any (fun x => x.pair == r.pair && x.date == r.date) then acc
    else acc ++ [r]) rows

/-- `syncRegistry.upsert({where: {key}, update/create: {lastCheck: now}})`. -/
def upsertSync (reg : String → Option ℤ) (key : String) (today : ℤ) :
    String → Option ℤ :=
  fun k => if k = key then some today else reg k

/-- `d.toISOString().split('T')[0]` applied to a stored bar: in the
day-as-integer model, the date itself. What `getAssetData` returns. -/
def rowToBar (r : AssetRow) : Bar :=
  { date := r.date, open_ := r.open_, high := r.high, low := r.low,
    close := r.close, adjClose := r.adjClose, volume := (r.volume : ℚ) }

/-- The quote-to-row mapping of `getAssetData` (lines 75–85):
`x || 0` on each numeric field, and `adjclose || close || 0` for
`adjClose` (a zero `adjclose` also falls through to `close`). -/
def quoteToAssetRow (ticker currency : String) (q : Quote) : AssetRow :=
  { ticker := ticker
    date := q.date
    open_ := q.open_.getD 0
    high := q.high.getD 0
    low := q.low.getD 0
    close := q.close.getD 0
    volume := q.volume.getD 0
    adjClose :=
      (match q.adjclose with
       | some v => if v ≠ 0 then v else q.close.getD 0
       | none => q.close.getD 0)
    currency := currency }

/-- What one run of `getAssetData` produced: the bars handed back, the
store afterwards, and the `period1` start date passed to the gateway, if
a gateway call was made at all. -/
structure AssetCallResult where
  bars : List Bar
  store : Store
  calledWith : Option ℤ

/-- The incremental fetch start (lines 51–58 and 154–158): the date of
the latest stored row if any rows exist, else the requested `fromDate`. -/
def fetchStartOf (dbData : List AssetRow) (period1 : ℤ) : ℤ :=
  match dbData.getLast? with
  | some lastRow => lastRow.date
  | none => period1

/-- Same computation for exchange-rate rows. -/
def rateFetchStartOf (dbData : List RateRow) (period1 : ℤ) : ℤ :=
  match dbData.getLast? with
  | some lastRow => lastRow.date
  | none => period1

/-- The store after step 5 of `getAssetData` (lines 71–91): insert the
valid quotes with duplicate skipping (the `createMany` is only issued for
a non-empty batch, which changes nothing either way). -/
def assetInsertStore (store : Store) (ticker currency : String)
    (quotes : List Quote) : Store :=
  let validQuotes := quotes.filter (fun q => q.close.isSome)
  let dataToInsert := validQuotes.map (quoteToAssetRow ticker currency)
  if dataToInsert ≠ [] then
    { store with assetPrice := insertAssetRows store.assetPrice dataToInsert }
  else store

/-- The store after steps 5–6 of `getAssetData`: rows inserted and the
sync registry stamped with today. -/
def assetSuccessStore (today : ℤ) (store : Store) (ticker currency : String)
    (quotes : List Quote) : Store :=
  let store1 := assetInsertStore store ticker currency quotes
  { store1 with syncRegistry := upsertSync store1.syncRegistry ("asset_" ++ ticker) today }

/-- `getAssetData(ticker, period1Str)` (lines 12–129). `today` is the
calendar day of `new Date()`; `gateway start` is the outcome of
`yahooFinance.chart(ticker, {period1: start})` together with
`chartResult.meta.currency || 'USD'` — `none` models a thrown error,
which the `catch` turns into the cached-data fallback with no store
write. -/
def getAssetData (today : ℤ) (gateway : ℤ → Option (List Quote × String))
    (ticker : String) (period1 : ℤ) (store : Store) : AssetCallResult :=
  let dbData := readAssetRange store ticker period1
  if dbData ≠ [] ∧ store.syncRegistry ("asset_" ++ ticker) = some today then
    { bars := dbData.map rowToBar, store := store, calledWith := none }
  else
    let fetchStart := fetchStartOf dbData period1
    match gateway fetchStart with
    | none =>
      { bars := dbData.map rowToBar, store := store, calledWith := some fetchStart }
    | some (quotes, currency) =>
      let store2 := assetSuccessStore today store ticker currency quotes
      { bars := (readAssetRange store2 ticker period1).map rowToBar,
        store := store2, calledWith := some fetchStart }

/-- What one run of `getExchangeRateData` produced. -/
structure RateCallResult where
  rows : List RateRow
  store : Store
  calledWith : Option ℤ

/-- The store after the insert step of `getExchangeRateData`
(lines 166–178). -/
def rateInsertStore (store : Store) (pair : String) (quotes : List Quote) : Store :=
  let validQuotes := quotes.filter (fun q => q.close.isSome)
  let dataToInsert := validQuotes.map (fun q =>
    ({ pair := pair, date := q.date, rate := q.close.getD 0 } : RateRow))
  if dataToInsert ≠ [] then
    { store with exchangeRate := insertRateRows store.exchangeRate dataToInsert }
  else store

/-- The store after insert plus registry stamp in `getExchangeRateData`. -/
def rateSuccessStore (today : ℤ) (store : Store) (pair : String)
    (quotes : List Quote) : Store :=
  let store1 := rateInsertStore store pair quotes
  { store1 with syncRegistry := upsertSync store1.syncRegistry ("rate_" ++ pair) today }

/-- `getExchangeRateData(pair, period1Str)` (lines 132–197). The gateway
oracle yields the chart quotes or `none` for a thrown error. -/
def getExchangeRateData (today : ℤ) (gateway : ℤ → Option (List Quote))
    (pair : String) (period1 : ℤ) (store : Store) : RateCallResult :=
  let dbData := readRateRange store pair period1
  if dbData ≠ [] ∧ store.syncRegistry ("rate_" ++ pair) = some today then
    { rows := dbData, store := store, calledWith := none }
  else
    let fetchStart := rateFetchStartOf dbData period1
    match gateway fetchStart with
    | none =>
      { rows := dbData, store := store, calledWith := some fetchStart }
    | some quotes =>
      let store2 := rateSuccessStore today store pair quotes
      { rows := readRateRange store2 pair period1,
        store := store2, calledWith := some fetchStart }

/-! ## Concrete fixtures used by witnesses and counterexamples -/

/-- Rate map used by the C7 counterexample: USD→EUR rate 2 on day 0. -/
def c7rateMap : String → Option (ℤ → Option ℚ) :=
  fun c => if c = "USD" then some (fun d => if d = 0 then some 2 else none) else none

/-- Store used by the C3 witness: one AAA bar on day 3, sync entry
reading day 10 for every key. -/
def c3store : Store :=
  { syncRegistry := fun _ => some 10
    assetPrice := [{ ticker := "AAA", date := 3, open_ := 1, high := 1, low := 1,
                     close := 9, volume := 5, adjClose := 9, currency := "USD" }]
    exchangeRate := [{ pair := "USDEUR=X", date := 3, rate := 2 }] }

/-- Store used by the C4 and C8 witnesses: stale sync ledger (never
checked), one stored AAA bar on day 3, no exchange rates. -/
def c4store : Store :=
  { syncRegistry := fun _ => none
    assetPrice := [{ ticker := "AAA", date := 3, open_ := 1, high := 1, low := 1,
                     close := 9, volume := 5, adjClose := 9, currency := "USD" }]
    exchangeRate := [] }

/-- Ledger for the C2 counterexample and witness: one BUY of each of two
tickers on day 0. -/
def c2txs : List Transaction :=
  [{ ticker := "A", type := .BUY, quantity := 1, date := 0, assetClass := none },
   { ticker := "B", type := .BUY, quantity := 1, date := 0, assetClass := none }]

/-- Pipeline input for the C2 counterexample and witness: ticker A has a
priced bar on day 0, ticker B fetches successfully but has no bars at
all, so B's price never resolves. -/
def c2inp : PipelineInput :=
  { transactions := c2txs
    baseCurrency := "EUR"
    fetch := fun t =>
      if t = "A" then
        .ok "EUR" [{ date := 0, open_ := 10, high := 10, low := 10, close := 10,
                     adjClose := 10, volume := 0 }]
      else .ok "EUR" []
    rateSeries := fun _ => []
    today := 0 }

/-- Pipeline input for the C9 witness: ticker A priced, ticker B's
fetch fails with message "boom". -/
def c9inp : PipelineInput :=
  { transactions :=
      [{ ticker := "A", type := .BUY, quantity := 1, date := 0, assetClass := none },
       { ticker := "B", type := .BUY, quantity := 2, date := 0, assetClass := none }]
    baseCurrency := "EUR"
    fetch := fun t =>
      if t = "A" then
        .ok "EUR" [{ date := 0, open_ := 10, high := 10, low := 10, close := 10,
                     adjClose := 10, volume := 0 }]
      else .err "boom"
    rateSeries := fun _ => []
    today := 0 }

/-- Pipeline input for the C10 counterexample: a BUY of A today and a
future-dated SELL of A five days later; A's fetch succeeds with no
bars. -/
def c10inp : PipelineInput :=
  { transactions :=
      [{ ticker := "A", type := .BUY, quantity := 1, date := 0, assetClass := none },
       { ticker := "A", type := .SELL, quantity := 1, date := 5, assetClass := none }]
    baseCurrency := "EUR"
    fetch := fun _ => .ok "EUR" []
    rateSeries := fun _ => []
    today := 0 }

/-- Pipeline input for the C10 witness: one BUY of A, fetch succeeds
with no bars. -/
def c10winp : PipelineInput :=
  { transactions :=
      [{ ticker := "A", type := .BUY, quantity := 2, date := 0, assetClass := none }]
    baseCurrency := "EUR"
    fetch := fun _ => .ok "EUR" []
    rateSeries := fun _ => []
    today := 0 }

/-! ## General lemmas -/

/-- Folding `+ f x` over a list from `a` is `a` plus the sum of the
mapped list. -/
lemma foldl_add_eq {α : Type} (f : α → ℚ) (l : List α) :
    ∀ a : ℚ, l.foldl (fun s x => s + f x) a = a + (l.map f).sum := by
  induction l with
  | nil => intro a; simp
  | cons x xs ih =>
    intro a
    simp only [List.foldl_cons, List.map_cons, List.sum_cons, ih]
    ring

/-- The engine's signed reduce equals the sum of the signed quantities. -/
lemma sumSigned_eq (txs : List Transaction) :
    sumSigned txs = (txs.map signedQty).sum := by
  simpa using foldl_add_eq signedQty txs 0

/-! ## Claim theorems -/

/-- C1: for every ticker and day `d`, the quantity the valuation engine
treats as held on `d` — the grouped-and-date-filtered signed reduce at
lines 365–371 / 403–409 — equals the sum, over that ticker's transactions
with date ≤ d, of +quantity for a BUY and −quantity for a SELL. The
equality is between the raw signed sums on both sides: no clamping or
rejection of a negative value appears anywhere (instantiating the theorem
at a sell-heavy ledger yields the negative sum as computed). -/
theorem claim_C1 (txs : List Transaction) (t : String) (d : ℤ) :
    heldQuantity (txsFor txs t) d
      = ((txs.filter (fun tx => tx.ticker == t && decide (tx.date ≤ d))).map
          signedQty).sum := by
  unfold heldQuantity txsFor
  rw [sumSigned_eq, List.filter_filter,
    List.filter_congr (fun a _ => Bool.and_comm (decide (a.date ≤ d)) (a.ticker == t))]

/-- C7 (amended): currency normalization multiplies a bar's open, high,
low and close by the resolved multiplier and leaves `date`, `adjClose`
and `volume` unchanged — the code's `...day` spread at lines 316–323
rebuilds only close/open/high/low, so `adjClose` is *not* converted,
contrary to the original claim. -/
theorem claim_C7 (isGBp skipFx : Bool) (ratesOpt : Option (ℤ → Option ℚ)) (bar : Bar) :
    convertBar isGBp skipFx ratesOpt bar =
      { date := bar.date
        open_ := bar.open_ * multiplierOf isGBp skipFx ratesOpt bar.date
        high := bar.high * multiplierOf isGBp skipFx ratesOpt bar.date
        low := bar.low * multiplierOf isGBp skipFx ratesOpt bar.date
        close := bar.close * multiplierOf isGBp skipFx ratesOpt bar.date
        adjClose := bar.adjClose
        volume := bar.volume } := rfl

/-- C7 counterexample: a USD bar converted to EUR at resolved multiplier
2 keeps `adjClose = 3` (the claim demands `3 * 2 = 6` there), while close,
open, high and low are doubled; so the claim that `adjClose` is multiplied
by the resolved multiplier is false on the code. -/
theorem claim_C7_counterexample :
    convertResult "EUR" c7rateMap
        (.ok "T" "USD" [{ date := 0, open_ := 1, high := 1, low := 1,
                          close := 10, adjClose := 3, volume := 7 }])
      = .ok "T" "EUR" [{ date := 0, open_ := 2, high := 2, low := 2,
                         close := 20, adjClose := 3, volume := 7 }]
    ∧ multiplierOf false false (c7rateMap "USD") 0 = 2
    ∧ (3 : ℚ) * 2 ≠ 3 := by
  refine ⟨?_, ?_, by norm_num⟩
  · simp +decide [convertResult, convertBar, multiplierOf, resolveRate, getNum,
      c7rateMap, findPrior]
    norm_num
  · simp +decide [multiplierOf, resolveRate, getNum, c7rateMap, findPrior]

/-- C6: a series whose native currency is pence sterling (`GBp`) is never
routed through the identity path: it is converted with `isGBp = true`
(part 1), whose multiplier always carries the factor 1/100 on top of the
resolved FX rate (part 2); and when the target currency is GBP itself the
conversion divides every open/high/low/close by exactly 100 with no FX
rate applied — the result is independent of whatever rate map is supplied
(part 3). -/
theorem claim_C6 :
    (∀ (base t : String) (rateMap : String → Option (ℤ → Option ℚ)) (data : List Bar),
      convertResult base rateMap (.ok t "GBp" data)
        = .ok t base (data.map (convertBar true (("GBP" : String) == base) (rateMap "GBP"))))
  ∧ (∀ (skipFx : Bool) (ratesOpt : Option (ℤ → Option ℚ)) (d : ℤ),
      multiplierOf true skipFx ratesOpt d = resolveRate skipFx ratesOpt d * (1 / 100))
  ∧ (∀ (ratesOpt : Option (ℤ → Option ℚ)) (bar : Bar),
      convertBar true true ratesOpt bar =
        { date := bar.date
          open_ := bar.open_ * (1 / 100)
          high := bar.high * (1 / 100)
          low := bar.low * (1 / 100)
          close := bar.close * (1 / 100)
          adjClose := bar.adjClose
          volume := bar.volume }) := by
  refine ⟨?_, ?_, ?_⟩
  · intro base t rateMap data
    simp [convertResult]
  · intro skipFx ratesOpt d
    simp [multiplierOf]
  · intro ratesOpt bar
    have hrate : resolveRate true ratesOpt bar.date = 1 := by
      simp [resolveRate]
    simp [convertBar, multiplierOf, hrate]

/-! ### Price Cache Manager lemmas -/

/-- In a list sorted by an integer key, every element's key is at most
the last element's key. -/
lemma sorted_keyLe_getLast {α : Type} (f : α → ℤ) :
    ∀ (l : List α), List.Sorted (keyLe f) l → ∀ x ∈ l, ∀ (hne : l ≠ []),
      f x ≤ f (l.getLast hne) := by
  intro l
  induction l with
  | nil => intro _ x hx; cases hx
  | cons a as ih =>
    intro hs x hx hne
    rcases List.mem_cons.1 hx with rfl | hx2
    · cases as with
      | nil => simp [List.getLast]
      | cons b bs =>
        have hmem : (b :: bs).getLast (by simp) ∈ b :: bs := List.getLast_mem _
        have := (List.pairwise_cons.1 hs).1 _ hmem
        simpa [List.getLast_cons] using this
    · cases as with
      | nil => cases hx2
      | cons b bs =>
        have := ih (List.pairwise_cons.1 hs).2 x hx2 (by simp)
        simpa [List.getLast_cons] using this

lemma readAssetRange_sorted (store : Store) (t : String) (p1 : ℤ) :
    List.Sorted (keyLe AssetRow.date) (readAssetRange store t p1) :=
  List.sorted_insertionSort _ _

lemma readRateRange_sorted (store : Store) (pair : String) (p1 : ℤ) :
    List.Sorted (keyLe RateRow.date) (readRateRange store pair p1) :=
  List.sorted_insertionSort _ _

lemma fetchStartOf_of_ne_nil (l : List AssetRow) (hne : l ≠ []) (p1 : ℤ) :
    fetchStartOf l p1 = (l.getLast hne).date := by
  rw [fetchStartOf, List.getLast?_eq_getLast_of_ne_nil hne]

lemma rateFetchStartOf_of_ne_nil (l : List RateRow) (hne : l ≠ []) (p1 : ℤ) :
    rateFetchStartOf l p1 = (l.getLast hne).date := by
  rw [rateFetchStartOf, List.getLast?_eq_getLast_of_ne_nil hne]

/-- Cache-hit branch of `getAssetData` (lines 36–47). -/
lemma getAssetData_hit {today : ℤ} {gw : ℤ → Option (List Quote × String)}
    {t : String} {p1 : ℤ} {store : Store}
    (hne : readAssetRange store t p1 ≠ [])
    (hsync : store.syncRegistry ("asset_" ++ t) = some today) :
    getAssetData today gw t p1 store
      = { bars := (readAssetRange store t p1).map rowToBar, store := store,
          calledWith := none } := by
  simp only [getAssetData]
  rw [if_pos ⟨hne, hsync⟩]

/-- Gateway-failure branch of `getAssetData` (lines 116–128). -/
lemma getAssetData_fail {today : ℤ} {gw : ℤ → Option (List Quote × String)}
    {t : String} {p1 : ℤ} {store : Store}
    (hmiss : ¬(readAssetRange store t p1 ≠ []
        ∧ store.syncRegistry ("asset_" ++ t) = some today))
    (hgw : gw (fetchStartOf (readAssetRange store t p1) p1) = none) :
    getAssetData today gw t p1 store
      = { bars := (readAssetRange store t p1).map rowToBar, store := store,
          calledWith := some (fetchStartOf (readAssetRange store t p1) p1) } := by
  simp only [getAssetData]
  rw [if_neg hmiss, hgw]

/-- Success branch of `getAssetData` (lines 66–114). -/
lemma getAssetData_success {today : ℤ} {gw : ℤ → Option (List Quote × String)}
    {t : String} {p1 : ℤ} {store : Store} {quotes : List Quote} {currency : String}
    (hmiss : ¬(readAssetRange store t p1 ≠ []
        ∧ store.syncRegistry ("asset_" ++ t) = some today))
    (hgw : gw (fetchStartOf (readAssetRange store t p1) p1) = some (quotes, currency)) :
    getAssetData today gw t p1 store
      = { bars := (readAssetRange (assetSuccessStore today store t currency quotes) t p1).map
            rowToBar,
          store := assetSuccessStore today store t currency quotes,
          calledWith := some (fetchStartOf (readAssetRange store t p1) p1) } := by
  simp only [getAssetData]
  rw [if_neg hmiss, hgw]

/-- The bars any branch returns are the mapped re-read of the range from
the store the branch leaves behind. -/
lemma getAssetData_bars_inv (today : ℤ) (gw : ℤ → Option (List Quote × String))
    (t : String) (p1 : ℤ) (store : Store) :
    (getAssetData today gw t p1 store).bars
      = (readAssetRange (getAssetData today gw t p1 store).store t p1).map rowToBar := by
  by_cases hmiss : readAssetRange store t p1 ≠ []
      ∧ store.syncRegistry ("asset_" ++ t) = some today
  · rw [getAssetData_hit hmiss.1 hmiss.2]
  · cases hgw : gw (fetchStartOf (readAssetRange store t p1) p1) with
    | none => rw [getAssetData_fail hmiss hgw]
    | some qc =>
      obtain ⟨quotes, currency⟩ := qc
      rw [getAssetData_success hmiss hgw]

/-- The success path stamps the sync registry with today. -/
lemma assetSuccessStore_sync (today : ℤ) (store : Store) (t currency : String)
    (quotes : List Quote) :
    (assetSuccessStore today store t currency quotes).syncRegistry ("asset_" ++ t)
      = some today := by
  simp [assetSuccessStore, upsertSync]

/-- Cache-hit branch of `getExchangeRateData` (lines 150–152). -/
lemma getRateData_hit {today : ℤ} {gw : ℤ → Option (List Quote)}
    {pair : String} {p1 : ℤ} {store : Store}
    (hne : readRateRange store pair p1 ≠ [])
    (hsync : store.syncRegistry ("rate_" ++ pair) = some today) :
    getExchangeRateData today gw pair p1 store
      = { rows := readRateRange store pair p1, store := store, calledWith := none } := by
  simp only [getExchangeRateData]
  rw [if_pos ⟨hne, hsync⟩]

/-- Gateway-failure branch of `getExchangeRateData` (lines 193–196). -/
lemma getRateData_fail {today : ℤ} {gw : ℤ → Option (List Quote)}
    {pair : String} {p1 : ℤ} {store : Store}
    (hmiss : ¬(readRateRange store pair p1 ≠ []
        ∧ store.syncRegistry ("rate_" ++ pair) = some today))
    (hgw : gw (rateFetchStartOf (readRateRange store pair p1) p1) = none) :
    getExchangeRateData today gw pair p1 store
      = { rows := readRateRange store pair p1, store := store,
          calledWith := some (rateFetchStartOf (readRateRange store pair p1) p1) } := by
  simp only [getExchangeRateData]
  rw [if_neg hmiss, hgw]

/-- Success branch of `getExchangeRateData`. -/
lemma getRateData_success {today : ℤ} {gw : ℤ → Option (List Quote)}
    {pair : String} {p1 : ℤ} {store : Store} {quotes : List Quote}
    (hmiss : ¬(readRateRange store pair p1 ≠ []
        ∧ store.syncRegistry ("rate_" ++ pair) = some today))
    (hgw : gw (rateFetchStartOf (readRateRange store pair p1) p1) = some quotes) :
    getExchangeRateData today gw pair p1 store
      = { rows := readRateRange (rateSuccessStore today store pair quotes) pair p1,
          store := rateSuccessStore today store pair quotes,
          calledWith := some (rateFetchStartOf (readRateRange store pair p1) p1) } := by
  simp only [getExchangeRateData]
  rw [if_neg hmiss, hgw]

/-! ### Forward-fill lemmas -/

/-- The backward walk only reads the `n` days immediately before `d`. -/
lemma findPrior_congr (m m2 : ℤ → Option ℚ) :
    ∀ (d : ℤ) (n : ℕ), (∀ e : ℤ, d - n ≤ e → e ≤ d - 1 → m e = m2 e) →
      findPrior m d n = findPrior m2 d n := by
  intro d n
  induction n generalizing d with
  | zero => intro _; rfl
  | succ n ih =>
    intro h
    have h1 : m (d - 1) = m2 (d - 1) := h (d - 1) (by omega) (by omega)
    show (if getNum m (d - 1) = 0 then findPrior m (d - 1) n else some (getNum m (d - 1)))
        = (if getNum m2 (d - 1) = 0 then findPrior m2 (d - 1) n else some (getNum m2 (d - 1)))
    rw [getNum, getNum, h1]
    by_cases hz : (m2 (d - 1)).getD 0 = 0
    · rw [if_pos hz, if_pos hz]
      exact ih (d - 1) (fun e he1 he2 => h e (by omega) (by omega))
    · rw [if_neg hz, if_neg hz]

/-- The backward walk finds nothing iff every value in its window is
missing or zero. -/
lemma findPrior_eq_none_iff (m : ℤ → Option ℚ) :
    ∀ (d : ℤ) (n : ℕ),
      findPrior m d n = none ↔ ∀ e : ℤ, d - n ≤ e → e ≤ d - 1 → getNum m e = 0 := by
  intro d n
  induction n generalizing d with
  | zero =>
    constructor
    · intro _ e h1 h2; omega
    · intro _; rfl
  | succ n ih =>
    rw [show findPrior m d (n + 1)
        = if getNum m (d - 1) = 0 then findPrior m (d - 1) n else some (getNum m (d - 1))
      from rfl]
    by_cases hz : getNum m (d - 1) = 0
    · rw [if_pos hz, ih (d - 1)]
      constructor
      · intro H e h1 h2
        by_cases he : e = d - 1
        · rw [he]; exact hz
        · exact H e (by omega) (by omega)
      · intro H e h1 h2
        exact H e (by omega) (by omega)
    · rw [if_neg hz]
      constructor
      · intro H; exact absurd H (by simp)
      · intro H; exact absurd (H (d - 1) (by omega) (by omega)) hz

/-- The backward walk returns the value of the nearest prior day carrying
a non-zero value, provided that day is inside the window. -/
lemma findPrior_eq_some_of (m : ℤ → Option ℚ) :
    ∀ (d : ℤ) (n : ℕ) (e : ℤ), d - n ≤ e → e ≤ d - 1 → getNum m e ≠ 0 →
      (∀ x : ℤ, e < x → x ≤ d - 1 → getNum m x = 0) →
      findPrior m d n = some (getNum m e) := by
  intro d n
  induction n generalizing d with
  | zero => intro e h1 h2 _ _; exfalso; omega
  | succ n ih =>
    intro e h1 h2 hne hmax
    rw [show findPrior m d (n + 1)
        = if getNum m (d - 1) = 0 then findPrior m (d - 1) n else some (getNum m (d - 1))
      from rfl]
    by_cases he : e = d - 1
    · subst he
      rw [if_neg hne]
    · have hz : getNum m (d - 1) = 0 := hmax (d - 1) (by omega) (by omega)
      rw [if_pos hz]
      exact ih (d - 1) e (by omega) (by omega) hne (fun x hx1 hx2 => hmax x hx1 (by omega))

/-- C5: forward-fill boundedness. (1) When no exchange rate exists on `d`
or any of the 7 preceding days, the FX multiplier is exactly 1. (2) When
the exact-date rate is missing, the rate used is that of the nearest
prior day with a value, which lies at most 7 days back. (3) Under the
same 7-day emptiness, a ticker's price resolves to nothing and its
contribution to the day's value is exactly 0. (4) The price fill likewise
uses the nearest value at most 7 days back. (5) Locality: both resolvers
depend only on the values of days `d-7 … d`, so a value 8 or more days
back is never used. -/
theorem claim_C5 :
    (∀ (m : ℤ → Option ℚ) (d : ℤ),
      (∀ e : ℤ, d - 7 ≤ e → e ≤ d → getNum m e = 0) →
      resolveRate false (some m) d = 1)
  ∧ (∀ (m : ℤ → Option ℚ) (d e : ℤ),
      getNum m d = 0 → d - 7 ≤ e → e ≤ d - 1 → getNum m e ≠ 0 →
      (∀ x : ℤ, e < x → x ≤ d - 1 → getNum m x = 0) →
      resolveRate false (some m) d = getNum m e)
  ∧ (∀ (m : ℤ → Option ℚ) (d : ℤ),
      (∀ e : ℤ, d - 7 ≤ e → e ≤ d → getNum m e = 0) →
      resolvePrice (some m) d = none
      ∧ ∀ (pm : String → Option (ℤ → Option ℚ)) (txs : List Transaction) (t : String),
          pm t = some m → dayContribution pm txs t d = 0)
  ∧ (∀ (m : ℤ → Option ℚ) (d e : ℤ),
      getNum m d = 0 → d - 7 ≤ e → e ≤ d - 1 → getNum m e ≠ 0 →
      (∀ x : ℤ, e < x → x ≤ d - 1 → getNum m x = 0) →
      resolvePrice (some m) d = some (getNum m e))
  ∧ (∀ (m m2 : ℤ → Option ℚ) (d : ℤ),
      (∀ e : ℤ, d - 7 ≤ e → e ≤ d → m e = m2 e) →
      resolveRate false (some m) d = resolveRate false (some m2) d
      ∧ resolvePrice (some m) d = resolvePrice (some m2) d) := by
  have hnone : ∀ (m : ℤ → Option ℚ) (d : ℤ),
      (∀ e : ℤ, d - 7 ≤ e → e ≤ d → getNum m e = 0) → findPrior m d 7 = none :=
    fun m d h => (findPrior_eq_none_iff m d 7).2 (fun e h1 h2 => h e (by omega) (by omega))
  refine ⟨?_, ?_, ?_, ?_, ?_⟩
  · intro m d h
    have hd : getNum m d = 0 := h d (by omega) (by omega)
    simp [resolveRate, hd, hnone m d h]
  · intro m d e hd h1 h2 hne hmax
    have hfp : findPrior m d 7 = some (getNum m e) :=
      findPrior_eq_some_of m d 7 e (by omega) h2 hne hmax
    simp [resolveRate, hd, hfp, hne]
  · intro m d h
    have hd : getNum m d = 0 := h d (by omega) (by omega)
    have hrp : resolvePrice (some m) d = none := by
      simp [resolvePrice, hd, hnone m d h]
    refine ⟨hrp, fun pm txs t hpm => ?_⟩
    simp [dayContribution, hpm, hrp]
  · intro m d e hd h1 h2 hne hmax
    have hfp : findPrior m d 7 = some (getNum m e) :=
      findPrior_eq_some_of m d 7 e (by omega) h2 hne hmax
    simp [resolvePrice, hd, hfp]
  · intro m m2 d h
    have hd : getNum m d = getNum m2 d := by rw [getNum, getNum, h d (by omega) (by omega)]
    have hfp : findPrior m d 7 = findPrior m2 d 7 :=
      findPrior_congr m m2 d 7 (fun e h1 h2 => h e (by omega) (by omega))
    constructor
    · simp only [resolveRate, hd, hfp]
    · simp only [resolvePrice, hd, hfp]

/-- C5 witness: a map holding 5 on day 2 only. On day 9 (exact value
missing, nearest prior value 7 days back) the rate resolves to 5 and the
price to `some 5`; on the empty map the rate falls back to 1 and the
price to `none`. -/
theorem claim_C5_witness :
    resolveRate false (some (fun d : ℤ => if d = 2 then some 5 else none)) 9 = 5
  ∧ resolvePrice (some (fun d : ℤ => if d = 2 then some 5 else none)) 9 = some 5
  ∧ resolveRate false (some emptyMap) 0 = 1
  ∧ resolvePrice (some emptyMap) 0 = none := by
  have hmax : ∀ x : ℤ, (2 : ℤ) < x → x ≤ 9 - 1 →
      getNum (fun d : ℤ => if d = 2 then some 5 else none) x = 0 := by
    intro x h1 h2
    have : ¬ (x = 2) := by omega
    simp [getNum, this]
  have hd : getNum (fun d : ℤ => if d = 2 then some 5 else none) 9 = 0 := by
    simp +decide [getNum]
  have hne : getNum (fun d : ℤ => if d = 2 then some 5 else none) 2 ≠ 0 := by
    simp [getNum]
  have hempty : ∀ e : ℤ, (0 : ℤ) - 7 ≤ e → e ≤ 0 → getNum emptyMap e = 0 := by
    intro e _ _; simp [getNum, emptyMap]
  have h2v : getNum (fun d : ℤ => if d = 2 then some 5 else none) 2 = 5 := by
    simp [getNum]
  refine ⟨?_, ?_, ?_, ?_⟩
  · rw [claim_C5.2.1 _ 9 2 hd (by omega) (by omega) hne hmax, h2v]
  · rw [claim_C5.2.2.2.1 _ 9 2 hd (by omega) (by omega) hne hmax, h2v]
  · exact claim_C5.1 emptyMap 0 hempty
  · exact (claim_C5.2.2.1 emptyMap 0 hempty).1

/-- C3: freshness makes a series request a pure cache hit. Parts 1–2:
for assets and for exchange rates, if the sync-ledger entry equals
today's calendar day and at least one bar with date ≥ `fromDate` is
stored, the request returns exactly the stored range, leaves the store
untouched, and passes nothing to the gateway. Part 3: whenever a run did
call the gateway and that call succeeded, the resulting store's sync
entry is stamped with today. Part 4: hence a second request in the same
calendar day against the store left by a run whose returned bars are
non-empty and whose sync entry reads today is a pure cache hit returning
the same bars — at most one gateway call per symbol per day. -/
theorem claim_C3 :
    (∀ (today : ℤ) (gw : ℤ → Option (List Quote × String)) (t : String) (p1 : ℤ)
        (store : Store),
      store.syncRegistry ("asset_" ++ t) = some today →
      readAssetRange store t p1 ≠ [] →
      getAssetData today gw t p1 store
        = { bars := (readAssetRange store t p1).map rowToBar, store := store,
            calledWith := none })
  ∧ (∀ (today : ℤ) (gw : ℤ → Option (List Quote)) (pair : String) (p1 : ℤ)
        (store : Store),
      store.syncRegistry ("rate_" ++ pair) = some today →
      readRateRange store pair p1 ≠ [] →
      getExchangeRateData today gw pair p1 store
        = { rows := readRateRange store pair p1, store := store, calledWith := none })
  ∧ (∀ (today : ℤ) (gw : ℤ → Option (List Quote × String)) (t : String) (p1 : ℤ)
        (store : Store) (x : ℤ),
      (getAssetData today gw t p1 store).calledWith = some x →
      (gw x).isSome = true →
      (getAssetData today gw t p1 store).store.syncRegistry ("asset_" ++ t) = some today)
  ∧ (∀ (today : ℤ) (gw gw2 : ℤ → Option (List Quote × String)) (t : String) (p1 : ℤ)
        (store : Store),
      (getAssetData today gw t p1 store).store.syncRegistry ("asset_" ++ t) = some today →
      (getAssetData today gw t p1 store).bars ≠ [] →
      getAssetData today gw2 t p1 (getAssetData today gw t p1 store).store
        = { bars := (getAssetData today gw t p1 store).bars,
            store := (getAssetData today gw t p1 store).store,
            calledWith := none }) := by
  refine ⟨fun today gw t p1 store hsync hne => getAssetData_hit hne hsync,
    fun today gw pair p1 store hsync hne => getRateData_hit hne hsync, ?_, ?_⟩
  · intro today gw t p1 store x hcw hgs
    by_cases hmiss : readAssetRange store t p1 ≠ []
        ∧ store.syncRegistry ("asset_" ++ t) = some today
    · rw [getAssetData_hit hmiss.1 hmiss.2] at hcw
      cases hcw
    · cases hgw : gw (fetchStartOf (readAssetRange store t p1) p1) with
      | none =>
        rw [getAssetData_fail hmiss hgw] at hcw
        have hx : fetchStartOf (readAssetRange store t p1) p1 = x := by
          simpa using hcw
        rw [← hx, hgw] at hgs
        cases hgs
      | some qc =>
        obtain ⟨quotes, currency⟩ := qc
        rw [getAssetData_success hmiss hgw]
        exact assetSuccessStore_sync today store t currency quotes
  · intro today gw gw2 t p1 store hsync hbars
    have hinv := getAssetData_bars_inv today gw t p1 store
    have hne : readAssetRange (getAssetData today gw t p1 store).store t p1 ≠ [] := by
      intro h0
      rw [h0] at hinv
      exact hbars (by simpa using hinv)
    rw [getAssetData_hit hne hsync, ← hinv]

/-- C3 witness: on day 10 both cached requests return the stored rows,
keep the store, and never touch the gateway. -/
theorem claim_C3_witness :
    getAssetData 10 (fun _ => none) "AAA" 0 c3store
      = { bars := (readAssetRange c3store "AAA" 0).map rowToBar, store := c3store,
          calledWith := none }
  ∧ getExchangeRateData 10 (fun _ => none) "USDEUR=X" 0 c3store
      = { rows := readRateRange c3store "USDEUR=X" 0, store := c3store,
          calledWith := none } := by
  constructor
  · exact claim_C3.1 10 (fun _ => none) "AAA" 0 c3store rfl
      (by simp +decide [readAssetRange, c3store, List.insertionSort, List.orderedInsert])
  · exact claim_C3.2.1 10 (fun _ => none) "USDEUR=X" 0 c3store rfl
      (by simp +decide [readRateRange, c3store, List.insertionSort, List.orderedInsert])

/-- C4: whenever a request is not a cache hit (stale sync entry or empty
stored range), the start date passed to the gateway is the incremental
fetch start: the date of the latest stored bar of the requested range
when bars exist (a genuine element of the range, and an upper bound of
all stored dates in it), and the original `fromDate` exactly when the
stored range is empty. Stated for the asset helper and for the
exchange-rate helper. -/
theorem claim_C4 :
    (∀ (today : ℤ) (gw : ℤ → Option (List Quote × String)) (t : String) (p1 : ℤ)
        (store : Store),
      ¬(readAssetRange store t p1 ≠ []
          ∧ store.syncRegistry ("asset_" ++ t) = some today) →
      (getAssetData today gw t p1 store).calledWith
          = some (fetchStartOf (readAssetRange store t p1) p1)
      ∧ (readAssetRange store t p1 = [] →
          fetchStartOf (readAssetRange store t p1) p1 = p1)
      ∧ (readAssetRange store t p1 ≠ [] →
          (∃ r ∈ readAssetRange store t p1,
            fetchStartOf (readAssetRange store t p1) p1 = r.date)
          ∧ ∀ r ∈ readAssetRange store t p1,
              r.date ≤ fetchStartOf (readAssetRange store t p1) p1))
  ∧ (∀ (today : ℤ) (gw : ℤ → Option (List Quote)) (pair : String) (p1 : ℤ)
        (store : Store),
      ¬(readRateRange store pair p1 ≠ []
          ∧ store.syncRegistry ("rate_" ++ pair) = some today) →
      (getExchangeRateData today gw pair p1 store).calledWith
          = some (rateFetchStartOf (readRateRange store pair p1) p1)
      ∧ (readRateRange store pair p1 = [] →
          rateFetchStartOf (readRateRange store pair p1) p1 = p1)
      ∧ (readRateRange store pair p1 ≠ [] →
          (∃ r ∈ readRateRange store pair p1,
            rateFetchStartOf (readRateRange store pair p1) p1 = r.date)
          ∧ ∀ r ∈ readRateRange store pair p1,
              r.date ≤ rateFetchStartOf (readRateRange store pair p1) p1)) := by
  constructor
  · intro today gw t p1 store hmiss
    refine ⟨?_, fun hemp => by rw [hemp]; rfl, fun hne => ?_⟩
    · cases hgw : gw (fetchStartOf (readAssetRange store t p1) p1) with
      | none => rw [getAssetData_fail hmiss hgw]
      | some qc =>
        obtain ⟨quotes, currency⟩ := qc
        rw [getAssetData_success hmiss hgw]
    · rw [fetchStartOf_of_ne_nil _ hne]
      exact ⟨⟨(readAssetRange store t p1).getLast hne, List.getLast_mem hne, rfl⟩,
        fun r hr => sorted_keyLe_getLast AssetRow.date _
          (readAssetRange_sorted store t p1) r hr hne⟩
  · intro today gw pair p1 store hmiss
    refine ⟨?_, fun hemp => by rw [hemp]; rfl, fun hne => ?_⟩
    · cases hgw : gw (rateFetchStartOf (readRateRange store pair p1) p1) with
      | none => rw [getRateData_fail hmiss hgw]
      | some quotes => rw [getRateData_success hmiss hgw]
    · rw [rateFetchStartOf_of_ne_nil _ hne]
      exact ⟨⟨(readRateRange store pair p1).getLast hne, List.getLast_mem hne, rfl⟩,
        fun r hr => sorted_keyLe_getLast RateRow.date _
          (readRateRange_sorted store pair p1) r hr hne⟩

/-- C4 witness: with a stale ledger the asset request passes the
incremental start to the gateway, and the rate request (empty stored
range) passes the original `fromDate`. -/
theorem claim_C4_witness :
    (getAssetData 10 (fun _ => none) "AAA" 0 c4store).calledWith
        = some (fetchStartOf (readAssetRange c4store "AAA" 0) 0)
    ∧ (getExchangeRateData 10 (fun _ => none) "USDEUR=X" 0 c4store).calledWith
        = some (rateFetchStartOf (readRateRange c4store "USDEUR=X" 0) 0) :=
  ⟨(claim_C4.1 10 (fun _ => none) "AAA" 0 c4store (by simp [c4store])).1,
   (claim_C4.2 10 (fun _ => none) "USDEUR=X" 0 c4store (by simp [c4store])).1⟩

/-- C8: when the gateway call fails (the oracle returns `none`,
modelling a thrown provider error), both helpers return exactly the rows
already stored for the requested range — possibly the empty sequence —
and leave the whole store, sync registry included, unchanged, so the
next request retries the fetch. The functions return normally (the
`catch` swallows the error), so nothing propagates to the caller. -/
theorem claim_C8 :
    (∀ (today : ℤ) (gw : ℤ → Option (List Quote × String)) (t : String) (p1 : ℤ)
        (store : Store),
      ¬(readAssetRange store t p1 ≠ []
          ∧ store.syncRegistry ("asset_" ++ t) = some today) →
      gw (fetchStartOf (readAssetRange store t p1) p1) = none →
      getAssetData today gw t p1 store
        = { bars := (readAssetRange store t p1).map rowToBar, store := store,
            calledWith := some (fetchStartOf (readAssetRange store t p1) p1) })
  ∧ (∀ (today : ℤ) (gw : ℤ → Option (List Quote)) (pair : String) (p1 : ℤ)
        (store : Store),
      ¬(readRateRange store pair p1 ≠ []
          ∧ store.syncRegistry ("rate_" ++ pair) = some today) →
      gw (rateFetchStartOf (readRateRange store pair p1) p1) = none →
      getExchangeRateData today gw pair p1 store
        = { rows := readRateRange store pair p1, store := store,
            calledWith := some (rateFetchStartOf (readRateRange store pair p1) p1) }) :=
  ⟨fun _ _ _ _ _ hmiss hgw => getAssetData_fail hmiss hgw,
   fun _ _ _ _ _ hmiss hgw => getRateData_fail hmiss hgw⟩

/-- C8 witness: a failing gateway on the C4 store returns the stored
bars for the asset (and the empty list for the rate pair) with the store
unchanged. -/
theorem claim_C8_witness :
    getAssetData 10 (fun _ => none) "AAA" 0 c4store
      = { bars := (readAssetRange c4store "AAA" 0).map rowToBar, store := c4store,
          calledWith := some (fetchStartOf (readAssetRange c4store "AAA" 0) 0) }
  ∧ getExchangeRateData 10 (fun _ => none) "USDEUR=X" 0 c4store
      = { rows := readRateRange c4store "USDEUR=X" 0, store := c4store,
          calledWith := some (rateFetchStartOf (readRateRange c4store "USDEUR=X" 0) 0) } :=
  ⟨claim_C8.1 10 (fun _ => none) "AAA" 0 c4store (by simp [c4store]) rfl,
   claim_C8.2 10 (fun _ => none) "USDEUR=X" 0 c4store (by simp [c4store]) rfl⟩

/-! ### Value-series lemmas -/

/-- Once the series is non-empty, every remaining day is appended. -/
lemma seriesSteps_started (tickers : List String) (pm : String → Option (ℤ → Option ℚ))
    (txsAll : List Transaction) :
    ∀ (L : List ℤ) (acc : List SeriesPoint), acc ≠ [] →
      L.foldl (seriesStep tickers pm txsAll) acc
        = acc ++ L.map (pointOf tickers pm txsAll) := by
  intro L
  induction L with
  | nil => intro acc _; simp
  | cons d ds ih =>
    intro acc hacc
    rw [List.foldl_cons, List.map_cons]
    have hstep : seriesStep tickers pm txsAll acc d
        = acc ++ [pointOf tickers pm txsAll d] := by
      simp only [seriesStep]
      rw [if_pos (Or.inr hacc)]
    rw [hstep, ih _ (by simp)]
    simp

/-- The value-series fold is: drop the leading days with non-positive
aggregate, keep every day from the first positive one on. -/
lemma foldl_seriesStep_eq (tickers : List String) (pm : String → Option (ℤ → Option ℚ))
    (txsAll : List Transaction) :
    ∀ L : List ℤ,
      L.foldl (seriesStep tickers pm txsAll) []
        = (L.dropWhile (fun d => !decide (0 < dailyTotalOf tickers pm txsAll d))).map
            (pointOf tickers pm txsAll) := by
  intro L
  induction L with
  | nil => rfl
  | cons d ds ih =>
    rw [List.foldl_cons, List.dropWhile_cons]
    by_cases h : 0 < dailyTotalOf tickers pm txsAll d
    · have hstep : seriesStep tickers pm txsAll [] d = [pointOf tickers pm txsAll d] := by
        simp only [seriesStep]
        rw [if_pos (Or.inl h)]
        rfl
      rw [hstep, seriesSteps_started tickers pm txsAll ds _ (by simp)]
      simp [h]
    · have hstep : seriesStep tickers pm txsAll [] d = [] := by
        simp only [seriesStep]
        rw [if_neg (by simp [h])]
      rw [hstep, ih]
      simp [h]

/-- The breakdown fold is a `filterMap` over the ticker keys. -/
lemma breakdownOf_aux (pm : String → Option (ℤ → Option ℚ))
    (txsAll : List Transaction) (d : ℤ) :
    ∀ (tickers : List String) (acc : List (String × ℚ)),
      tickers.foldl (fun acc t =>
        let q := heldQuantity (txsFor txsAll t) d
        if 0 < q then
          match resolvePrice (pm t) d with
          | some p => acc ++ [(t, q * p)]
          | none => acc
        else acc) acc
      = acc ++ tickers.filterMap (fun t =>
          let q := heldQuantity (txsFor txsAll t) d
          if 0 < q then (resolvePrice (pm t) d).map (fun p => (t, q * p)) else none) := by
  intro tickers
  induction tickers with
  | nil => intro acc; simp
  | cons t ts ih =>
    intro acc
    rw [List.foldl_cons, List.filterMap_cons]
    by_cases hq : 0 < heldQuantity (txsFor txsAll t) d
    · cases hrp : resolvePrice (pm t) d with
      | some p =>
        simp only [hq, if_pos, hrp, Option.map_some']
        rw [ih]
        simp
      | none =>
        simp only [hq, if_pos, hrp, Option.map_none']
        rw [ih]
    · simp only [if_neg hq]
      rw [ih]

lemma breakdownOf_eq (tickers : List String) (pm : String → Option (ℤ → Option ℚ))
    (txsAll : List Transaction) (d : ℤ) :
    breakdownOf tickers pm txsAll d
      = tickers.filterMap (fun t =>
          let q := heldQuantity (txsFor txsAll t) d
          if 0 < q then (resolvePrice (pm t) d).map (fun p => (t, q * p)) else none) := by
  rw [breakdownOf]
  simpa using breakdownOf_aux pm txsAll d tickers []

/-- `dailyTotal` is the sum of the per-ticker contributions. -/
lemma dailyTotalOf_eq (tickers : List String) (pm : String → Option (ℤ → Option ℚ))
    (txsAll : List Transaction) (d : ℤ) :
    dailyTotalOf tickers pm txsAll d
      = (tickers.map (fun t => dayContribution pm txsAll t d)).sum := by
  rw [dailyTotalOf]
  simpa using foldl_add_eq (fun t => dayContribution pm txsAll t d) tickers 0

lemma mem_dayRange {a b d : ℤ} : d ∈ dayRange a b ↔ a ≤ d ∧ d ≤ b := by
  simp only [dayRange, List.mem_map, List.mem_range]
  constructor
  · rintro ⟨i, hi, rfl⟩
    omega
  · intro h
    exact ⟨(d - a).toNat, by omega, by omega⟩

lemma dayRange_eq_nil {a b : ℤ} (h : b < a) : dayRange a b = [] := by
  rw [dayRange, show (b + 1 - a).toNat = 0 by omega]
  rfl

lemma dayRange_eq_cons {a b : ℤ} (h : a ≤ b) :
    dayRange a b = a :: dayRange (a + 1) b := by
  rw [dayRange, dayRange,
    show (b + 1 - a).toNat = (b + 1 - (a + 1)).toNat + 1 by omega,
    List.range_succ_eq_map, List.map_cons, List.map_map]
  congr 1
  · simp
  · apply List.map_congr_left
    intro i _
    simp only [Function.comp_apply]
    push_cast
    ring

/-- Membership in the trimmed range: a day survives the trim iff it is
in the range and some day of the range at or before it satisfies `P`. -/
lemma dropWhile_dayRange_mem (P : ℤ → Bool) :
    ∀ (n : ℕ) (a b d : ℤ), (b + 1 - a).toNat = n →
      (d ∈ (dayRange a b).dropWhile (fun x => !P x)
        ↔ d ∈ dayRange a b ∧ ∃ e, e ∈ dayRange a b ∧ e ≤ d ∧ P e = true) := by
  intro n
  induction n with
  | zero =>
    intro a b d hn
    rw [dayRange_eq_nil (by omega)]
    simp
  | succ n ih =>
    intro a b d hn
    rw [dayRange_eq_cons (by omega), List.dropWhile_cons]
    by_cases hPa : P a = true
    · rw [if_neg (by simp [hPa])]
      constructor
      · intro hd
        refine ⟨hd, a, List.mem_cons_self _ _, ?_, hPa⟩
        rcases List.mem_cons.1 hd with rfl | hd2
        · exact le_refl d
        · exact le_of_lt (by have := (mem_dayRange.1 hd2).1; omega)
      · intro hd
        exact hd.1
    · rw [if_pos (by simp [hPa])]
      rw [ih (a + 1) b d (by omega)]
      constructor
      · rintro ⟨hd, e, he, hle, hPe⟩
        exact ⟨List.mem_cons_of_mem _ hd, e, List.mem_cons_of_mem _ he, hle, hPe⟩
      · rintro ⟨hd, e, he, hle, hPe⟩
        rcases List.mem_cons.1 he with rfl | he2
        · exact absurd hPe hPa
        refine ⟨?_, e, he2, hle, hPe⟩
        rcases List.mem_cons.1 hd with rfl | hd2
        · exfalso
          have := (mem_dayRange.1 he2).1
          omega
        · exact hd2

/-- Unfolding `getPipeline` on a non-empty ledger. -/
lemma getPipeline_cons (inp : PipelineInput) (t0 : Transaction)
    (rest : List Transaction) (h : inp.transactions = t0 :: rest) :
    getPipeline inp
      = { results := convertedResultsOf inp
          baseCurrency := inp.baseCurrency
          portfolioSeries := portfolioSeriesOf (tickersOf inp.transactions)
            (priceMapOf (convertedResultsOf inp)) inp.transactions t0.date inp.today
          holdings := holdingsOf (tickersOf inp.transactions) inp.transactions
            (convertedResultsOf inp) } := by
  rw [getPipeline, h]

/-- C2 (amended): for a non-empty ledger, (1) the produced value series
is exactly the enumerated day range with its leading non-positive-value
days dropped and every later day kept — so a day is included exactly when
its aggregate value is positive or some earlier day was already included
(part 2) — and (3) every included point carries the aggregate `value` of
its day plus one sub-field per ticker that both holds a positive quantity
and has a price resolvable within the 7-day lookback on that day (a
positively-held ticker whose price does not resolve gets *no* sub-field,
which is the amendment), each sub-field equal to that ticker's own day
value. -/
theorem claim_C2 (inp : PipelineInput) (t0 : Transaction) (rest : List Transaction)
    (h : inp.transactions = t0 :: rest) :
    (getPipeline inp).portfolioSeries
      = ((dayRange t0.date inp.today).dropWhile
          (fun d => !decide (0 < dailyTotalOf (tickersOf inp.transactions)
              (priceMapOf (convertedResultsOf inp)) inp.transactions d))).map
          (pointOf (tickersOf inp.transactions) (priceMapOf (convertedResultsOf inp))
            inp.transactions)
  ∧ (∀ d : ℤ,
      (∃ p ∈ (getPipeline inp).portfolioSeries, p.date = d)
        ↔ d ∈ dayRange t0.date inp.today
          ∧ ∃ e ∈ dayRange t0.date inp.today, e ≤ d
              ∧ 0 < dailyTotalOf (tickersOf inp.transactions)
                  (priceMapOf (convertedResultsOf inp)) inp.transactions e)
  ∧ (∀ p ∈ (getPipeline inp).portfolioSeries,
      p.value = dailyTotalOf (tickersOf inp.transactions)
          (priceMapOf (convertedResultsOf inp)) inp.transactions p.date
      ∧ p.breakdown = (tickersOf inp.transactions).filterMap (fun t =>
          let q := heldQuantity (txsFor inp.transactions t) p.date
          if 0 < q then
            (resolvePrice (priceMapOf (convertedResultsOf inp) t) p.date).map
              (fun pr => (t, q * pr))
          else none)
      ∧ ∀ f ∈ p.breakdown,
          0 < heldQuantity (txsFor inp.transactions f.1) p.date
          ∧ f.2 = dayContribution (priceMapOf (convertedResultsOf inp))
              inp.transactions f.1 p.date) := by
  have hser : (getPipeline inp).portfolioSeries
      = portfolioSeriesOf (tickersOf inp.transactions)
          (priceMapOf (convertedResultsOf inp)) inp.transactions t0.date inp.today := by
    rw [getPipeline_cons inp t0 rest h]
  have h1 : (getPipeline inp).portfolioSeries
      = ((dayRange t0.date inp.today).dropWhile
          (fun d => !decide (0 < dailyTotalOf (tickersOf inp.transactions)
              (priceMapOf (convertedResultsOf inp)) inp.transactions d))).map
          (pointOf (tickersOf inp.transactions) (priceMapOf (convertedResultsOf inp))
            inp.transactions) := by
    rw [hser, portfolioSeriesOf, foldl_seriesStep_eq]
  refine ⟨h1, ?_, ?_⟩
  · intro d
    rw [h1]
    have hmem := dropWhile_dayRange_mem
      (fun x => decide (0 < dailyTotalOf (tickersOf inp.transactions)
        (priceMapOf (convertedResultsOf inp)) inp.transactions x))
      ((inp.today + 1 - t0.date).toNat) t0.date inp.today d rfl
    constructor
    · rintro ⟨p, hp, rfl⟩
      obtain ⟨e, he, rfl⟩ := List.mem_map.1 hp
      obtain ⟨hd, e2, he2, hle, hPe⟩ := hmem.1 he
      exact ⟨hd, e2, he2, hle, of_decide_eq_true hPe⟩
    · rintro ⟨hd, e, he, hle, hpos⟩
      have hin : d ∈ (dayRange t0.date inp.today).dropWhile
          (fun x => !decide (0 < dailyTotalOf (tickersOf inp.transactions)
            (priceMapOf (convertedResultsOf inp)) inp.transactions x)) :=
        hmem.2 ⟨hd, e, he, hle, decide_eq_true hpos⟩
      exact ⟨pointOf (tickersOf inp.transactions) (priceMapOf (convertedResultsOf inp))
        inp.transactions d, List.mem_map_of_mem _ hin, rfl⟩
  · intro p hp
    rw [h1] at hp
    obtain ⟨e, he, rfl⟩ := List.mem_map.1 hp
    refine ⟨rfl, ?_, ?_⟩
    · exact breakdownOf_eq _ _ _ _
    · intro f hf
      rw [show (pointOf (tickersOf inp.transactions) (priceMapOf (convertedResultsOf inp))
            inp.transactions e).breakdown
          = breakdownOf (tickersOf inp.transactions) (priceMapOf (convertedResultsOf inp))
            inp.transactions e from rfl, breakdownOf_eq] at hf
      obtain ⟨t, _, hgt⟩ := List.mem_filterMap.1 hf
      by_cases hq : 0 < heldQuantity (txsFor inp.transactions t) e
      · rw [if_pos hq] at hgt
        cases hrp : resolvePrice (priceMapOf (convertedResultsOf inp) t) e with
        | none => rw [hrp] at hgt; cases hgt
        | some pr =>
          rw [hrp] at hgt
          obtain rfl : (t, heldQuantity (txsFor inp.transactions t) e * pr) = f := by
            simpa using hgt
          refine ⟨hq, ?_⟩
          simp [dayContribution, pointOf, hq, hrp]
      · rw [if_neg hq] at hgt
        cases hgt

/-- C2 counterexample: on day 0 both tickers have held quantity 1 > 0,
yet the single included point carries a sub-field only for A — ticker B,
whose price does not resolve, has no sub-field, refuting the original
claim that every included point carries one sub-field per ticker with
positive held quantity. -/
theorem claim_C2_counterexample :
    (getPipeline c2inp).portfolioSeries
      = [{ date := 0, value := 10, breakdown := [("A", 10)] }]
    ∧ 0 < heldQuantity (txsFor c2txs "B") 0
    ∧ ∀ f ∈ [(("A", (10 : ℚ)))], f.1 ≠ "B" := by
  refine ⟨?_, ?_, by decide⟩
  · simp +decide [getPipeline, c2inp, c2txs, convertedResultsOf, rawResults, rawEntry,
      tickersOf,
      dedup, uniqueCurrenciesOf, pipelineRateMap, convertResult, convertBar, multiplierOf,
      resolveRate, priceMapOf, buildMap, mapSet, emptyMap, getNum, findPrior, resolvePrice,
      portfolioSeriesOf, dayRange, seriesStep, dailyTotalOf, dayContribution, heldQuantity,
      sumSigned, signedQty, txsFor, breakdownOf, pointOf, buildRateMap, FetchResult.isOk,
      FetchResult.tickerOf, List.range_succ]
  · simp +decide [heldQuantity, txsFor, c2txs, sumSigned, signedQty]

/-- C2 witness: the amended characterization instantiated on the
concrete two-ticker input. -/
theorem claim_C2_witness :
    (getPipeline c2inp).portfolioSeries
      = ((dayRange 0 c2inp.today).dropWhile
          (fun d => !decide (0 < dailyTotalOf (tickersOf c2inp.transactions)
              (priceMapOf (convertedResultsOf c2inp)) c2inp.transactions d))).map
          (pointOf (tickersOf c2inp.transactions) (priceMapOf (convertedResultsOf c2inp))
            c2inp.transactions) :=
  (claim_C2 c2inp
    { ticker := "A", type := .BUY, quantity := 1, date := 0, assetClass := none }
    [{ ticker := "B", type := .BUY, quantity := 1, date := 0, assetClass := none }]
    rfl).1

/-! ### Error-propagation lemmas -/

/-- Conversion never changes which ticker a result belongs to. -/
lemma convertResult_tickerOf (b : String) (rm : String → Option (ℤ → Option ℚ))
    (r : FetchResult) : (convertResult b rm r).tickerOf = r.tickerOf := by
  cases r with
  | err t m => rfl
  | ok t c data =>
    simp only [convertResult]
    split <;> (split <;> rfl)

/-- Conversion never changes whether a result is an error. -/
lemma convertResult_isOk (b : String) (rm : String → Option (ℤ → Option ℚ))
    (r : FetchResult) : (convertResult b rm r).isOk = r.isOk := by
  cases r with
  | err t m => rfl
  | ok t c data =>
    simp only [convertResult]
    split <;> (split <;> rfl)

/-- The raw entry built for ticker `t` carries ticker `t`. -/
lemma rawEntry_tickerOf (fetch : String → FetchOutcome) (t : String) :
    (rawEntry fetch t).tickerOf = t := by
  cases hft : fetch t <;> simp [rawEntry, hft, FetchResult.tickerOf]

/-- The raw entry of an errored fetch. -/
lemma rawEntry_err (fetch : String → FetchOutcome) (t msg : String)
    (h : fetch t = .err msg) : rawEntry fetch t = FetchResult.err t msg := by
  rw [rawEntry, h]

/-- The raw entry of a successful fetch. -/
lemma rawEntry_ok (fetch : String → FetchOutcome) (t c : String) (bars : List Bar)
    (h : fetch t = .ok c bars) : rawEntry fetch t = FetchResult.ok t c bars := by
  rw [rawEntry, h]

/-- A ticker whose fetch errored has no entry in `priceMap`. -/
lemma priceMapOf_err (inp : PipelineInput) (t₀ msg : String)
    (herr : inp.fetch t₀ = .err msg) :
    priceMapOf (convertedResultsOf inp) t₀ = none := by
  have hfind : (convertedResultsOf inp).find?
      (fun r => r.isOk && r.tickerOf == t₀) = none := by
    apply List.find?_eq_none.2
    intro r hr
    rw [convertedResultsOf] at hr
    obtain ⟨r0, hr0, rfl⟩ := List.mem_map.1 hr
    rw [rawResults] at hr0
    obtain ⟨t, ht, rfl⟩ := List.mem_map.1 hr0
    by_cases hteq : t = t₀
    · subst hteq
      rw [rawEntry_err _ _ _ herr]
      simp [convertResult, FetchResult.isOk]
    · simp only [Bool.and_eq_true, beq_iff_eq]
      rintro ⟨_, htick⟩
      rw [convertResult_tickerOf, rawEntry_tickerOf] at htick
      exact hteq htick
  rw [priceMapOf, hfind]

/-- A ticker with no `priceMap` entry contributes nothing to any day. -/
lemma dayContribution_of_pm_none (pm : String → Option (ℤ → Option ℚ))
    (txsAll : List Transaction) (t : String) (d : ℤ) (hpm : pm t = none) :
    dayContribution pm txsAll t d = 0 := by
  simp [dayContribution, resolvePrice, hpm]

/-- Dropping the summands that are zero does not change a sum. -/
lemma sum_map_filter_of_zero {α : Type} (p : α → Bool) (f : α → ℚ) :
    ∀ l : List α, (∀ x ∈ l, p x = false → f x = 0) →
      (l.map f).sum = ((l.filter p).map f).sum := by
  intro l
  induction l with
  | nil => intro _; rfl
  | cons x xs ih =>
    intro h
    rw [List.map_cons, List.sum_cons, List.filter_cons]
    by_cases hp : p x = true
    · simp only [hp, if_true, List.map_cons, List.sum_cons]
      rw [ih (fun y hy => h y (List.mem_cons_of_mem _ hy))]
    · rw [Bool.not_eq_true] at hp
      simp only [hp, Bool.false_eq_true, if_false]
      rw [h x (List.mem_cons_self _ _) hp, zero_add,
        ih (fun y hy => h y (List.mem_cons_of_mem _ hy))]

/-- An ok-shaped result produces no entry in the errors list. -/
lemma errEntry_of_isOk (r : FetchResult) (h : r.isOk = true) :
    errEntry r = none := by
  cases r with
  | ok _ _ _ => rfl
  | err _ _ => cases h

/-- The error entries of the converted results are exactly the tickers
whose fetch errored, with their messages, in ticker order. -/
lemma errorsOf_pipeline (base : String) (rm : String → Option (ℤ → Option ℚ))
    (fetch : String → FetchOutcome) :
    ∀ tickers : List String,
      errorsOf ((rawResults fetch tickers).map (convertResult base rm))
        = tickers.filterMap (fun t =>
            match fetch t with
            | .err m => some (t, m)
            | _ => none) := by
  intro tickers
  induction tickers with
  | nil => rfl
  | cons t ts ih =>
    rw [rawResults, List.map_cons, List.map_cons, errorsOf, List.filterMap_cons,
      List.filterMap_cons]
    rw [rawResults] at ih
    rw [errorsOf] at ih
    cases hft : fetch t with
    | ok c bars =>
      rw [rawEntry_ok fetch t c bars hft]
      have hok : (convertResult base rm (FetchResult.ok t c bars)).isOk = true := by
        rw [convertResult_isOk]
        rfl
      rw [errEntry_of_isOk _ hok, ih]
    | err m =>
      rw [rawEntry_err fetch t m hft]
      rw [show convertResult base rm (FetchResult.err t m) = FetchResult.err t m from rfl]
      rw [ih]
      rfl

/-- `find?` over the converted results of a ticker list resolves, for any
listed ticker, to the conversion of that ticker's own raw entry. -/
lemma find?_converted (base : String) (rm : String → Option (ℤ → Option ℚ))
    (fetch : String → FetchOutcome) :
    ∀ (tickers : List String) (t : String), t ∈ tickers →
      ((rawResults fetch tickers).map (convertResult base rm)).find?
          (fun r => r.tickerOf == t)
        = some (convertResult base rm (rawEntry fetch t)) := by
  intro tickers
  induction tickers with
  | nil => intro t ht; cases ht
  | cons s ss ih =>
    intro t ht
    rw [rawResults, List.map_cons, List.map_cons]
    by_cases hst : s = t
    · subst hst
      rw [List.find?_cons_of_pos]
      simp only [convertResult_tickerOf, rawEntry_tickerOf, beq_self_eq_true]
    · rw [List.find?_cons_of_neg]
      · rw [rawResults] at ih
        exact ih t (by
          rcases List.mem_cons.1 ht with rfl | h2
          · exact absurd rfl hst
          · exact h2)
      · simp only [convertResult_tickerOf, rawEntry_tickerOf, beq_iff_eq]
        simp [hst]

/-- The converted result of an empty-bar ok fetch: an ok result in the
base currency, still with no bars (both conversion paths preserve the
empty data array). -/
lemma convertResult_ok_nil (base : String) (rm : String → Option (ℤ → Option ℚ))
    (t c : String) :
    convertResult base rm (FetchResult.ok t c []) = FetchResult.ok t base [] := by
  simp only [convertResult]
  split <;> (split <;> rfl)

/-- C9: when the fetch for one ticker fails, (1) the failure is surfaced
as a `{ticker, error}` entry naming that ticker in the `results` array,
(2) the error entries are exactly the failed tickers with their
messages, (3) every value-series point is computed from the remaining
tickers only — the failed ticker contributes nothing to the aggregate
and carries no breakdown field — and (4)–(5) the rest of the payload
(base currency, holdings summary) is still computed and returned; the
failure is never fatal to the batch (the embedded pipeline is a total
function: the inner catch at lines 252–255 confines the error). -/
theorem claim_C9 (inp : PipelineInput) (t₀ msg : String)
    (herr : inp.fetch t₀ = .err msg) (hmem : t₀ ∈ tickersOf inp.transactions) :
    (t₀, msg) ∈ errorsOf (getPipeline inp).results
  ∧ errorsOf (getPipeline inp).results
      = (tickersOf inp.transactions).filterMap (fun t =>
          match inp.fetch t with
          | .err m => some (t, m)
          | _ => none)
  ∧ (∀ p ∈ (getPipeline inp).portfolioSeries,
      p.value = (((tickersOf inp.transactions).filter (fun t => !(t == t₀))).map
          (fun t => dayContribution (priceMapOf (convertedResultsOf inp))
            inp.transactions t p.date)).sum
      ∧ ∀ f ∈ p.breakdown, f.1 ≠ t₀)
  ∧ (getPipeline inp).baseCurrency = inp.baseCurrency
  ∧ (getPipeline inp).holdings
      = holdingsOf (tickersOf inp.transactions) inp.transactions
          (convertedResultsOf inp) := by
  obtain ⟨t0, rest, hx⟩ : ∃ t0 rest, inp.transactions = t0 :: rest := by
    cases hx : inp.transactions with
    | nil =>
      rw [hx] at hmem
      simp [tickersOf, dedup] at hmem
    | cons a l => exact ⟨a, l, rfl⟩
  have hcons := getPipeline_cons inp t0 rest hx
  have hpm : priceMapOf (convertedResultsOf inp) t₀ = none :=
    priceMapOf_err inp t₀ msg herr
  have herrs : errorsOf (getPipeline inp).results
      = (tickersOf inp.transactions).filterMap (fun t =>
          match inp.fetch t with
          | .err m => some (t, m)
          | _ => none) := by
    rw [hcons]
    exact errorsOf_pipeline inp.baseCurrency _ inp.fetch (tickersOf inp.transactions)
  refine ⟨?_, herrs, ?_, ?_, ?_⟩
  · rw [herrs]
    exact List.mem_filterMap.2 ⟨t₀, hmem, by rw [herr]⟩
  · intro p hp
    rw [hcons] at hp
    rw [show (PipelineOutput.mk (convertedResultsOf inp) inp.baseCurrency
        (portfolioSeriesOf (tickersOf inp.transactions)
          (priceMapOf (convertedResultsOf inp)) inp.transactions t0.date inp.today)
        (holdingsOf (tickersOf inp.transactions) inp.transactions
          (convertedResultsOf inp))).portfolioSeries
      = portfolioSeriesOf (tickersOf inp.transactions)
          (priceMapOf (convertedResultsOf inp)) inp.transactions t0.date inp.today
      from rfl, portfolioSeriesOf, foldl_seriesStep_eq] at hp
    obtain ⟨e, he, rfl⟩ := List.mem_map.1 hp
    constructor
    · show dailyTotalOf (tickersOf inp.transactions)
          (priceMapOf (convertedResultsOf inp)) inp.transactions e = _
      rw [dailyTotalOf_eq]
      apply sum_map_filter_of_zero
      intro x hx2 hpx
      have hxt : x = t₀ := by simpa using hpx
      rw [hxt]
      exact dayContribution_of_pm_none _ _ _ _ hpm
    · intro f hf
      rw [show (pointOf (tickersOf inp.transactions)
            (priceMapOf (convertedResultsOf inp)) inp.transactions e).breakdown
          = breakdownOf (tickersOf inp.transactions)
              (priceMapOf (convertedResultsOf inp)) inp.transactions e
        from rfl, breakdownOf_eq] at hf
      obtain ⟨t, _, hgt⟩ := List.mem_filterMap.1 hf
      by_cases hq : 0 < heldQuantity (txsFor inp.transactions t) e
      · rw [if_pos hq] at hgt
        obtain ⟨pr, hrp, hfeq⟩ := Option.map_eq_some'.1 hgt
        rw [← hfeq]
        intro hcontra
        have ht0 : t = t₀ := hcontra
        rw [ht0, hpm] at hrp
        simp [resolvePrice] at hrp
      · rw [if_neg hq] at hgt
        cases hgt
  · rw [hcons]
  · rw [hcons]

/-- C9 witness: the per-ticker error surfacing instantiated on a
two-ticker input whose ticker B fails with "boom". -/
theorem claim_C9_witness :
    ("B", "boom") ∈ errorsOf (getPipeline c9inp).results
  ∧ errorsOf (getPipeline c9inp).results
      = (tickersOf c9inp.transactions).filterMap (fun t =>
          match c9inp.fetch t with
          | .err m => some (t, m)
          | _ => none)
  ∧ (getPipeline c9inp).baseCurrency = c9inp.baseCurrency := by
  have h := claim_C9 c9inp "B" "boom" (by simp +decide [c9inp])
    (by simp +decide [tickersOf, dedup, c9inp])
  exact ⟨h.1, h.2.1, h.2.2.2.1⟩

/-- C10 (amended): a ticker with transactions whose signed net quantity
over **all** its recorded transactions — the code applies no date cutoff,
which is the amendment — is strictly positive, and whose fetch either
errored or returned no bars, still gets a holdings row: its entry is
present with `currentPrice = 0` and `currentValue = 0` rather than being
omitted. -/
theorem claim_C10 (inp : PipelineInput) (t : String)
    (hmem : t ∈ tickersOf inp.transactions)
    (hq : 0 < sumSigned (txsFor inp.transactions t))
    (hfd : ∀ (c : String) (bars : List Bar), inp.fetch t = .ok c bars → bars = []) :
    mkHolding inp.transactions (convertedResultsOf inp) t ∈ (getPipeline inp).holdings
  ∧ (mkHolding inp.transactions (convertedResultsOf inp) t).ticker = t
  ∧ (mkHolding inp.transactions (convertedResultsOf inp) t).quantity
      = sumSigned (txsFor inp.transactions t)
  ∧ (mkHolding inp.transactions (convertedResultsOf inp) t).currentPrice = 0
  ∧ (mkHolding inp.transactions (convertedResultsOf inp) t).currentValue = 0 := by
  obtain ⟨t0, rest, hx⟩ : ∃ t0 rest, inp.transactions = t0 :: rest := by
    cases hx : inp.transactions with
    | nil =>
      rw [hx] at hmem
      simp [tickersOf, dedup] at hmem
    | cons a l => exact ⟨a, l, rfl⟩
  have hprice : currentPriceOf (convertedResultsOf inp) t = 0 := by
    rw [currentPriceOf, show convertedResultsOf inp
        = (rawResults inp.fetch (tickersOf inp.transactions)).map
            (convertResult inp.baseCurrency
              (pipelineRateMap inp.baseCurrency inp.rateSeries
                (rawResults inp.fetch (tickersOf inp.transactions))))
      from rfl, find?_converted _ _ _ _ _ hmem]
    cases hft : inp.fetch t with
    | err m =>
      rw [rawEntry_err _ _ _ hft]
      rfl
    | ok c bars =>
      have hb := hfd c bars hft
      rw [rawEntry_ok _ _ _ _ hft, hb, convertResult_ok_nil]
      rfl
  refine ⟨?_, rfl, rfl, hprice, ?_⟩
  · rw [getPipeline_cons inp t0 rest hx]
    show mkHolding inp.transactions (convertedResultsOf inp) t
      ∈ holdingsOf (tickersOf inp.transactions) inp.transactions (convertedResultsOf inp)
    rw [holdingsOf]
    refine List.mem_filter.2 ⟨List.mem_map_of_mem _ hmem, ?_⟩
    exact decide_eq_true hq
  · show sumSigned (txsFor inp.transactions t)
        * currentPriceOf (convertedResultsOf inp) t = 0
    rw [hprice, mul_zero]

/-- C10 counterexample: with a BUY of A today and a future-dated SELL of
A (day 5, `today` being day 0), the signed net quantity *as of today* is
1 > 0 and A's converted price series is empty, yet the holdings summary
is empty — the code sums all transactions with no date cutoff, so the
original claim's "as of today" reading is false. -/
theorem claim_C10_counterexample :
    0 < heldQuantity (txsFor c10inp.transactions "A") c10inp.today
    ∧ (getPipeline c10inp).results = [FetchResult.ok "A" "EUR" []]
    ∧ (getPipeline c10inp).holdings = [] := by
  refine ⟨?_, ?_, ?_⟩
  · simp +decide [heldQuantity, txsFor, c10inp, sumSigned, signedQty]
  · simp +decide [getPipeline, c10inp, convertedResultsOf, rawResults, rawEntry,
      tickersOf, dedup, uniqueCurrenciesOf, pipelineRateMap, convertResult,
      FetchResult.isOk, FetchResult.tickerOf]
  · simp +decide [getPipeline, c10inp, convertedResultsOf, rawResults, rawEntry,
      tickersOf, dedup, uniqueCurrenciesOf, pipelineRateMap, convertResult,
      holdingsOf, mkHolding, currentPriceOf, sumSigned, signedQty, txsFor,
      latestTx, FetchResult.isOk, FetchResult.tickerOf, FetchResult.dataOf]

/-- C10 witness: a positively-held ticker fetched with no bars appears
in the holdings with price and value 0. -/
theorem claim_C10_witness :
    mkHolding c10winp.transactions (convertedResultsOf c10winp) "A"
      ∈ (getPipeline c10winp).holdings
  ∧ (mkHolding c10winp.transactions (convertedResultsOf c10winp) "A").currentPrice = 0
  ∧ (mkHolding c10winp.transactions (convertedResultsOf c10winp) "A").currentValue = 0 := by
  have h := claim_C10 c10winp "A" (by simp +decide [tickersOf, dedup, c10winp])
    (by simp +decide [sumSigned, txsFor, c10winp, signedQty])
    (fun c bars hb => by
      have hb2 : FetchOutcome.ok "EUR" ([] : List Bar) = FetchOutcome.ok c bars := hb
      injection hb2 with h1 h2
      exact h2.symm)
  exact ⟨h.1, h.2.2.2.1, h.2.2.2.2⟩

end FinanceTracker
